import Mathlib

/-!
# Nebula: table metadata (`src/meta/Table.h`) and query DSL (`src/api/dsl/Dsl.h`)

A shallow embedding of the table metadata model and of the fluent query
builder, followed by the properties proved about them.

Conventions of the embedding:

* `size_t` values are natural numbers; the only arithmetic performed on them
  is `%`, which cannot overflow.
* `std::string` is `String`, `std::vector<T>` is `List T`.
* A `std::shared_ptr<T>` that may be null is `Option T`.
* `nebula::common::unordered_map<std::string, Column>` is the list of its
  entries in iteration order together with the proof that no key repeats.
* A C++ operation whose behaviour is undefined (integer division by zero)
  returns `none`.
-/

namespace nebula
namespace meta

/-! ## Types declared in headers that are not part of the sources -/

/-- Modelled from the spec: `nebula::type::Kind` (declared in `type/Type.h`,
which is not among the sources). The source names a single member,
`Kind::INVALID`; every other member is represented by its numeric code. -/
inductive Kind where
  | INVALID : Kind
  | other (code : Nat) : Kind
  deriving DecidableEq, Repr

/-- Modelled from the spec: a schema node (declared in `type/Type.h`, which is
not among the sources), of which the table only uses the name it is found
under and its kind `k()`. -/
structure TypeNode where
  name : String
  kind : Kind
  deriving DecidableEq, Repr

/-- Kind of a schema node, `node->k()`. -/
def TypeNode.k (node : TypeNode) : Kind := node.kind

/-- Modelled from the spec: the row type a `Schema` points to (declared in
`type/Type.h`, which is not among the sources): the sequence of its column
nodes, supporting "kind lookup by column name". -/
structure RowType where
  children : List TypeNode
  deriving DecidableEq, Repr

/-- Modelled from the spec: `schema->find(col)`, the node named `col`, or no
node when the schema has none of that name. -/
def RowType.find (s : RowType) (col : String) : Option TypeNode :=
  s.children.find? (fun node => node.name == col)

/-- The `Schema` handle, a shared pointer that may be null. -/
abbrev Schema := Option RowType

/-- Modelled from the spec: `AccessType` (declared in `meta/Access.h`, which is
not among the sources), an enumeration represented by its numeric code. -/
structure AccessType where
  code : Nat
  deriving DecidableEq, Repr

/-- Modelled from the spec: `ActionType` (declared in `meta/Access.h`, which is
not among the sources): the outcome of an access check, one of
read unrestricted / read masked / deny. -/
inductive ActionType where
  | ALLOW : ActionType
  | MASK : ActionType
  | DENY : ActionType
  deriving DecidableEq, Repr

/-- Modelled from the spec: `AccessRule` (declared in `meta/Access.h`, which is
not among the sources): a rule is scoped to a set of identity groups and an
access type, and yields an action. -/
structure AccessRule where
  type : AccessType
  groups : List String
  action : ActionType
  deriving DecidableEq, Repr

/-- The table-level rule list, `AccessSpec`. -/
abbrev AccessSpec := List AccessRule

/-- Modelled from the spec: `Pod` (declared in `meta/Pod.h`, which is not among
the sources): the partition index, owning an ordered list of partition keys.
The key type `PK` is left abstract. -/
structure Pod (PK : Type) where
  keys : List PK

/-! ## `Table.h` -/

/-- Partition values of a column, `struct PartitionInfo`. -/
structure PartitionInfo where
  values : List String
  chunk : Nat
  deriving DecidableEq, Repr

/-- `PartitionInfo::valid`: `chunk > 0 && values.size() > 0`. -/
def PartitionInfo.valid (p : PartitionInfo) : Bool :=
  decide (p.chunk > 0) && decide (p.values.length > 0)

/-- Bucketing of a column, `struct BucketInfo`. -/
structure BucketInfo where
  count : Nat
  bucketColumn : String
  deriving DecidableEq, Repr

/-- `BucketInfo::bucket`: `columnValue % count`. The remainder by zero is
undefined behaviour in C++ and has no result here. -/
def BucketInfo.bucket (b : BucketInfo) (columnValue : Nat) : Option Nat :=
  if b.count = 0 then none else some (columnValue % b.count)

/-- `BucketInfo::empty`: the static `EMPTY{ 0, "" }`. -/
def BucketInfo.empty : BucketInfo :=
  { count := 0, bucketColumn := "" }

/-- `PartitionInfo pi = {}`: the value-initialised aggregate, with no values
and `chunk` zero. -/
def PartitionInfo.init : PartitionInfo :=
  { values := [], chunk := 0 }

/-- Column properties fetched from the meta data system, `struct Column`. -/
structure Column where
  withBloomFilter : Bool
  withDict : Bool
  withCompress : Bool
  defaultValue : String
  rules : List AccessRule
  partition : PartitionInfo
  deriving DecidableEq, Repr

/-- `Column::Column`, with the default arguments of the source:
`bf = false, d = false, c = false, dv = "", rls = {}, pi = {}`. -/
def Column.ctor (bf : Bool := false) (d : Bool := false) (c : Bool := false)
    (dv : String := "") (rls : List AccessRule := [])
    (pi : PartitionInfo := PartitionInfo.init) : Column :=
  { withBloomFilter := bf
    withDict := d
    withCompress := c
    defaultValue := dv
    rules := rls
    partition := pi }

/-- `ColumnProps`, the map from column name to `Column`: its entries in
iteration order, no name occurring twice. -/
structure ColumnProps where
  entries : List (String × Column)
  distinct : (entries.map Prod.fst).Nodup

/-- `ColumnProps()`: the empty map. -/
def ColumnProps.empty : ColumnProps :=
  { entries := [], distinct := List.nodup_nil }

/-- `columns_.find(col)`: the column stored under `col`, or `none` for
`columns_.end()`. -/
def ColumnProps.find (m : ColumnProps) (col : String) : Option Column :=
  m.entries.lookup col

/-- `class Table`, its data members other than `lookup_`. The member `lookup_`
is a closure that holds a pointer to the object that was under construction;
its body is `Table.lookup_` and the pointer is kept by `TableObject` below. -/
structure Table (PK : Type) where
  name_ : String
  schema_ : Schema
  columns_ : ColumnProps
  rules_ : List AccessRule
  pod_ : Option (Pod PK)
  ddl_ : String

section TableOps

variable {PK : Type}

/-- The loop of the constructor that builds the key list: for each entry `cp`
of `columns_`, in iteration order, `keys.emplace_back(makeKey(cp.first, part))`
when `part.valid()`. The second argument is the list `keys` built so far. -/
def Table.collectKeys (makeKey : String → PartitionInfo → PK) :
    List (String × Column) → List PK → List PK
  | [], keys => keys
  | cp :: rest, keys =>
    let part := cp.2.partition
    if part.valid then
      Table.collectKeys makeKey rest (keys ++ [makeKey cp.1 part])
    else
      Table.collectKeys makeKey rest keys

/-- The five-argument constructor `Table::Table`. The two private routines it
calls, `loadTable` and `makeKey`, are declared in `Table.h` and defined outside
the sources; they are arguments here, with the roles the spec gives them:
`loadTable` "establishes `schema_`", and `makeKey` is the "table-specific
key-construction routine" that "constructs one `PK` per such column". -/
def Table.ctor (loadTable : Schema → Schema) (makeKey : String → PartitionInfo → PK)
    (name : String) (schema : Schema) (columns : ColumnProps) (rules : AccessSpec)
    (ddl : String) : Table PK :=
  let keys := Table.collectKeys makeKey columns.entries []
  { name_ := name
    schema_ := loadTable schema
    columns_ := columns
    rules_ := rules
    pod_ := if keys.length = 0 then none else some { keys := keys }
    ddl_ := ddl }

/-- The body of the closure `lookup_ = [this](const std::string& col) {...}`
defined by the constructor, run on the object `t` that the captured `this`
points to: the kind of the node `schema_->find(col)`, or `Kind::INVALID` when
there is no such node. A null `schema_` is dereferenced, which has no result. -/
def Table.lookup_ (t : Table PK) (col : String) : Option Kind :=
  match t.schema_ with
  | none => none
  | some s =>
    match s.find col with
    | some node => some node.k
    | none => some Kind.INVALID

/-- `operator==` on tables: `t1.name_ == t2.name_`. -/
def Table.operator_eq (t1 t2 : Table PK) : Bool :=
  t1.name_ == t2.name_

/-- `Table::name`. -/
def Table.name (t : Table PK) : String := t.name_

/-- `Table::ddl`. -/
def Table.ddl (t : Table PK) : String := t.ddl_

/-- The function-local `static const Column EMPTY{}` of `Table::column`. -/
def Table.EMPTY : Column := Column.ctor

/-- `Table::column`: the column stored under `col`, else `EMPTY`. -/
def Table.column (t : Table PK) (col : String) : Column :=
  match t.columns_.find col with
  | some column => column
  | none => Table.EMPTY

/-- `Table::pod`. -/
def Table.pod (t : Table PK) : Option (Pod PK) := t.pod_

end TableOps

/-! ### `Table` objects and the pointer held by `lookup_`

The closure `lookup_` captures `this`, the address of the object under
construction. `Table` declares no copy operation, so the implicit copy
constructor and copy assignment copy every member, `lookup_` with the pointer
it holds included. -/

/-- A `Table` object in memory: its data members, and the pointer that its
member `lookup_` holds. -/
structure TableObject (PK : Type) where
  members : Table PK
  captured : Nat

/-- The `Table` objects in memory, by address; an address without a live
object has none. -/
abbrev TableMemory (PK : Type) := Nat → Option (TableObject PK)

section TableObjects

variable {PK : Type}

/-- Memory without any `Table` object. -/
def TableMemory.empty : TableMemory PK :=
  fun _ => none

/-- Construction of a `Table` at address `a` by the five-argument
constructor: `lookup_` captures `this`, which is `a`. -/
def TableMemory.construct (m : TableMemory PK) (a : Nat) (loadTable : Schema → Schema)
    (makeKey : String → PartitionInfo → PK) (name : String) (schema : Schema)
    (columns : ColumnProps) (rules : AccessSpec) (ddl : String) : TableMemory PK :=
  fun b =>
    if b = a then
      some { members := Table.ctor loadTable makeKey name schema columns rules ddl
             captured := a }
    else m b

/-- The implicit copy constructor `Table(const Table&)`: the new object at
`dst` gets a copy of every member of the object at `src`. -/
def TableMemory.copy_construct (m : TableMemory PK) (src dst : Nat) : TableMemory PK :=
  fun b => if b = dst then m src else m b

/-- The implicit copy assignment `Table& operator=(const Table&)`: every
member of the object at `dst` is assigned from the object at `src`. -/
def TableMemory.copy_assign (m : TableMemory PK) (src dst : Nat) : TableMemory PK :=
  fun b => if b = dst then m src else m b

/-- Destruction of the object at `a`. -/
def TableMemory.destroy (m : TableMemory PK) (a : Nat) : TableMemory PK :=
  fun b => if b = a then none else m b

/-- `Table::lookup` of the object at `a`, called on `col`: the closure
`lookup_` of that object runs its body on the object its pointer designates.
There is no result when there is no object at `a`, when the pointer designates
no live object, or when the designated object has a null `schema_`. -/
def TableMemory.lookup (m : TableMemory PK) (a : Nat) (col : String) : Option Kind :=
  match m a with
  | none => none
  | some object =>
    match m object.captured with
    | none => none
    | some target => target.members.lookup_ col

end TableObjects

/-- `Table::ALL_COLUMNS`: select `*`. -/
def Table.ALL_COLUMNS : String := "*"

/-- `Table::TIME_COLUMN`: the reserved time field. -/
def Table.TIME_COLUMN : String := "_time_"

/-- `Table::WINDOW_COLUMN`: the column produced from the time window. -/
def Table.WINDOW_COLUMN : String := "_window_"

/-! ## `Table::checkAccess`, declared in `Table.h` and defined outside the sources -/

/-- Modelled from the spec: the access type `READ` of `AccessType` (declared
in `meta/Access.h`, which is not among the sources). -/
def AccessType.READ : AccessType := { code := 0 }

/-- Modelled from the spec: whether a rule matches a request, "by group
membership and access type": the rule has the access type of the request and
one of its groups is among the groups of the requester. -/
def AccessRule.applies (r : AccessRule) (type : AccessType) (groups : List String) : Bool :=
  r.type == type && r.groups.any (fun g => groups.contains g)

/-- Modelled from the spec: the evaluation of a rule list, "rules are
evaluated in declaration order; first matching rule (by group membership and
access type) wins"; `none` when no rule matches. -/
def AccessRule.evaluate (rules : List AccessRule) (type : AccessType)
    (groups : List String) : Option ActionType :=
  (rules.find? (fun r => r.applies type groups)).map AccessRule.action

/-- How restrictive an action is: `ALLOW` below `MASK` below `DENY`. -/
def ActionType.level : ActionType → Nat
  | ActionType.ALLOW => 0
  | ActionType.MASK => 1
  | ActionType.DENY => 2

/-- The more restrictive of two actions. -/
def ActionType.restrict (a b : ActionType) : ActionType :=
  if a.level ≤ b.level then b else a

section CheckAccess

variable {PK : Type}

/-- Modelled from the spec: `Table::checkAccess(accessType, groups, col = "")`,
declared in `Table.h` and defined outside the sources. Without a column it is
the table-level check: the first matching rule of the table decides, and "if
no rule matches, the configured default" `defaultAction` applies. With a
column it is "a column-level check layered on top of the table-level result
(column rules may further restrict, but never widen, a table-level ALLOW)":
the first matching rule of the column, if any, restricts the table-level
result. -/
def Table.checkAccess (defaultAction : ActionType) (t : Table PK) (type : AccessType)
    (groups : List String) (col : String := "") : ActionType :=
  let tableLevel := (AccessRule.evaluate t.rules_ type groups).getD defaultAction
  if col = "" then
    tableLevel
  else
    match AccessRule.evaluate (t.column col).rules type groups with
    | none => tableLevel
    | some action => tableLevel.restrict action

end CheckAccess

/-! ## Collaborators of `Dsl.h` declared in headers that are not part of the sources -/

/-- Modelled from the spec: the error kinds (`common/Errors.h` is not among the
sources): `TableNotFound`, `ColumnNotFound`, `AccessDenied`, `TypeMismatch`,
`InvalidPartitionColumn`, `InvalidQueryState`. -/
inductive Error where
  | TableNotFound : Error
  | ColumnNotFound : Error
  | AccessDenied : Error
  | TypeMismatch : Error
  | InvalidPartitionColumn : Error
  | InvalidQueryState : Error
  deriving DecidableEq, Repr

/-- Modelled from the spec: the metadata service (`meta/MetaService.h` is not
among the sources), which resolves table names to tables; `tables` gives the
table a name resolves to, if any. -/
structure MetaService (PK : Type) where
  tables : String → Option (Table PK)

/-- Modelled from the spec: `MetaService::query`, the resolution
"`resolve(tableName) -> Table` (read-only handle), fails with `TableNotFound`
when unknown". -/
def MetaService.query {PK : Type} (ms : MetaService PK) (name : String) :
    Except Error (Table PK) :=
  match ms.tables name with
  | some t => Except.ok t
  | none => Except.error Error.TableNotFound

end meta

namespace api
namespace dsl

open nebula.meta

/-! ## `Dsl.h` -/

/-- `enum class SortType`. -/
inductive SortType where
  | ASC : SortType
  | DESC : SortType
  deriving DecidableEq, Repr

/-- `class Query`, its data members. `MS` is the meta service type and `E` the
type of expression values (`MetaService.h` and `Expressions.h` are not among
the sources); the shared pointers `ms_`, `table_` and `filter_` may be null. -/
structure Query (MS PK E : Type) where
  ms_ : Option MS
  table_ : Option (Table PK)
  filter_ : Option E
  selects_ : List E
  groups_ : List Nat
  sorts_ : List Nat
  sortType_ : SortType
  limit_ : Nat

section QueryOps

variable {MS PK E : Type}

/-- `Query::where`: `filter_` becomes a pointer to a fresh copy of `filter`. -/
def Query.where (q : Query MS PK E) (filter : E) : Query MS PK E :=
  { q with filter_ := some filter }

/-- `Query::select`: `selects_` becomes the list of fresh copies of the
arguments, in argument order. -/
def Query.select (q : Query MS PK E) (select : List E) : Query MS PK E :=
  { q with selects_ := select }

/-- `Query::groupby`. -/
def Query.groupby (q : Query MS PK E) (groups : List Nat) : Query MS PK E :=
  { q with groups_ := groups }

/-- `Query::sortby`, with the default argument `type = SortType::ASC`. -/
def Query.sortby (q : Query MS PK E) (sorts : List Nat)
    (type : SortType := SortType.ASC) : Query MS PK E :=
  { q with sorts_ := sorts, sortType_ := type }

/-- `Query::limit`. -/
def Query.limit (q : Query MS PK E) (l : Nat) : Query MS PK E :=
  { q with limit_ := l }

/-- `Query::Query(const std::string& table, ms)`: `ms_` is `ms`, `table_` is
`ms_->query(table)`, `filter_` is null and `limit_` is zero; `selects_`,
`groups_` and `sorts_` are default-initialised, hence empty. The constructor
does not initialise `sortType_`: its indeterminate value is the argument
`sortType`. An exception of `ms_->query` leaves the constructor; a null `ms`
is dereferenced, which has no result. -/
def Query.ctor (table : String) (ms : Option (MetaService PK)) (sortType : SortType) :
    Option (Except Error (Query (MetaService PK) PK E)) :=
  match ms with
  | none => none
  | some m =>
    match m.query table with
    | Except.error e => some (Except.error e)
    | Except.ok t =>
      some (Except.ok
        { ms_ := some m
          table_ := some t
          filter_ := none
          selects_ := []
          groups_ := []
          sorts_ := []
          sortType_ := sortType
          limit_ := 0 })

/-- `Query::Query(Query& q)`, "actually a move constructor": `ms_`, `table_`,
`sortType_` and `limit_` are copied, and `filter_`, `selects_`, `groups_` and
`sorts_` are moved from `q`, which leaves a null pointer and empty vectors
there. The result is the constructed query and `q` as the constructor leaves
it. -/
def Query.ctor_copy (q : Query MS PK E) : Query MS PK E × Query MS PK E :=
  ({ ms_ := q.ms_
     table_ := q.table_
     filter_ := q.filter_
     selects_ := q.selects_
     groups_ := q.groups_
     sorts_ := q.sorts_
     sortType_ := q.sortType_
     limit_ := q.limit_ },
   { q with filter_ := none, selects_ := [], groups_ := [], sorts_ := [] })

/-- The function `table(name, metaservice = nullptr)`: a null `metaservice` is
replaced by `std::make_shared<MetaService>()`, the default-constructed service
`defaultService`, and the result is `Query(name, ms)`, whose uninitialised
`sortType_` is `sortType`. -/
def table (defaultService : MetaService PK) (sortType : SortType) (name : String)
    (metaservice : Option (MetaService PK) := none) :
    Option (Except Error (Query (MetaService PK) PK E)) :=
  let ms :=
    match metaservice with
    | none => some defaultService
    | some m => some m
  Query.ctor name ms sortType

end QueryOps

/-- Modelled from the spec: `nebula::execution::eval::UDFType`, the function
kind of a UDF expression (declared outside the sources). `Dsl.h` names the
members `MAX`, `MIN`, `COUNT`, `SUM` and `NOT`; any other member is
represented by its numeric code. -/
inductive UDFType where
  | MAX : UDFType
  | MIN : UDFType
  | COUNT : UDFType
  | SUM : UDFType
  | NOT : UDFType
  | other (code : Nat) : UDFType
  deriving DecidableEq, Repr

mutual

/-- Modelled from the spec: the value a `ConstExpression<T>` holds: a scalar
(represented by an integer), a string, or, `T` being any static type, an
expression object. -/
inductive Value where
  | scalar (v : Int) : Value
  | string (v : String) : Value
  | expression (e : Expression) : Value

/-- Modelled from the spec: the expression classes of `Expressions.h` (not
among the sources), the closed set of variants column reference, typed
constant, and function application tagged by a function kind with exactly one
child. -/
inductive Expression where
  | ColumnExpression (column : String) : Expression
  | ConstExpression (value : Value) : Expression
  | UDFExpression (kind : UDFType) (child : Expression) : Expression

end

/-- The function `col(column)`: `ColumnExpression(column)`. -/
def col (column : String) : Expression :=
  Expression.ColumnExpression column

/-- The function `max(expr)`: the `MAX` expression over a fresh copy of
`expr`. -/
def max (expr : Expression) : Expression :=
  Expression.UDFExpression UDFType.MAX expr

/-- The function `min(expr)`: the `MIN` expression over a fresh copy of
`expr`. -/
def min (expr : Expression) : Expression :=
  Expression.UDFExpression UDFType.MIN expr

/-- The function `count(expr)`, for `expr` of any type `T`: the `COUNT`
expression over `ConstExpression<T>(expr)`. -/
def count (expr : Value) : Expression :=
  Expression.UDFExpression UDFType.COUNT (Expression.ConstExpression expr)

/-- The function `sum(expr)`: the `SUM` expression over a fresh copy of
`expr`. -/
def sum (expr : Expression) : Expression :=
  Expression.UDFExpression UDFType.SUM expr

/-- The function `reverse(expr)`: the `NOT` expression over a fresh copy of
`expr`. -/
def reverse (expr : Expression) : Expression :=
  Expression.UDFExpression UDFType.NOT expr

/-- The functions `v(value)`: `ConstExpression<T>(value)`. -/
def v (value : Value) : Expression :=
  Expression.ConstExpression value

/-! ## `Query::compile`, declared in `Dsl.h` and defined outside the sources -/

/-- The columns an expression references. The operand of a constant
expression "is never evaluated as a column reference". -/
def Expression.columns : Expression → List String
  | Expression.ColumnExpression column => [column]
  | Expression.ConstExpression _ => []
  | Expression.UDFExpression _ child => child.columns

section Compile

variable {PK : Type} {α β : Type}

end Compile

/-! ## The builder with its expressions behind shared pointers

`filter_` and `selects_` are `std::shared_ptr<Expression>`. The operations
`where` and `select` above are stated on the expressions pointed to; here they
are stated on the pointers, over a heap of reference-counted objects. -/

/-- An object managed by `std::shared_ptr`: its value and the number of
pointers that own it. -/
structure Cell (E : Type) where
  value : E
  owners : Nat

/-- The heap of managed objects, by address. `next` is the address the next
allocation returns; an address whose object was destroyed, or that was never
allocated, has no cell. -/
structure Heap (E : Type) where
  next : Nat
  cells : Nat → Option (Cell E)

section SharedOps

variable {MS PK E : Type}

/-- The value of the object at an address, if there is one. -/
def Heap.read (h : Heap E) (a : Nat) : Option E :=
  (h.cells a).map Cell.value

/-- `std::shared_ptr<Expression>(new T(v))`: a new object, a copy of `v`,
with one owner; the result is the heap and the address of the object. -/
def Heap.make (h : Heap E) (v : E) : Heap E × Nat :=
  ({ next := h.next + 1
     cells := fun a => if a = h.next then some { value := v, owners := 1 } else h.cells a },
   h.next)

/-- Copy of a shared pointer to the object at `a`: one more owner. -/
def Heap.acquire (h : Heap E) (a : Nat) : Heap E :=
  { h with
    cells := fun b =>
      if b = a then (h.cells a).map (fun c => { c with owners := c.owners + 1 })
      else h.cells b }

/-- Destruction or reassignment of a shared pointer to the object at `a`: one
owner less, and the object is destroyed with its last owner. -/
def Heap.release (h : Heap E) (a : Nat) : Heap E :=
  { h with
    cells := fun b =>
      if b = a then
        match h.cells a with
        | none => none
        | some c => if c.owners ≤ 1 then none else some { c with owners := c.owners - 1 }
      else h.cells b }

/-- The pack expansion `std::shared_ptr<Expression>(new E(select))...`: one
new object per argument, in argument order. -/
def Heap.makeAll (h : Heap E) : List E → Heap E × List Nat
  | [] => (h, [])
  | v :: vs => (((h.make v).1.makeAll vs).1, (h.make v).2 :: ((h.make v).1.makeAll vs).2)

/-- Release of every pointer of a vector. -/
def Heap.releaseAll (h : Heap E) : List Nat → Heap E
  | [] => h
  | a :: rest => (h.release a).releaseAll rest

/-- The builder at the level of pointers: `filter_` and `selects_` of `query`
hold addresses of objects of `heap`. -/
structure SharedQuery (MS PK E : Type) where
  heap : Heap E
  query : Query MS PK Nat

/-- `Query::where` on pointers: `filter_ = std::shared_ptr<Expression>(new
T(filter))` makes a new object and releases the pointer `filter_` held. -/
def SharedQuery.where (b : SharedQuery MS PK E) (filter : E) : SharedQuery MS PK E :=
  let made := b.heap.make filter
  { heap :=
      match b.query.filter_ with
      | none => made.1
      | some old => made.1.release old
    query := { b.query with filter_ := some made.2 } }

/-- `Query::select` on pointers: `selects_ = { std::shared_ptr<Expression>(new
E(select))... }` makes the new objects and releases the pointers `selects_`
held. -/
def SharedQuery.select (b : SharedQuery MS PK E) (select : List E) : SharedQuery MS PK E :=
  let made := b.heap.makeAll select
  { heap := made.1.releaseAll b.query.selects_
    query := { b.query with selects_ := made.2 } }

/-- A client captures the expression instance at `a`: it takes a copy of the
shared pointer. -/
def SharedQuery.capture (b : SharedQuery MS PK E) (a : Nat) : SharedQuery MS PK E :=
  { b with heap := b.heap.acquire a }

/-- The pointers the builder holds are addresses that were allocated. -/
def SharedQuery.WF (b : SharedQuery MS PK E) : Prop :=
  (∀ a, b.query.filter_ = some a → a < b.heap.next) ∧
  (∀ a ∈ b.query.selects_, a < b.heap.next)

end SharedOps

end dsl
end api

/-! ## Specification-side notions -/

namespace meta

section TableSpec

variable {PK : Type}

/-- The key list held by the pod of a table; a table without a pod holds no
key. -/
def Table.podKeys (t : Table PK) : List PK :=
  match t.pod with
  | none => []
  | some p => p.keys

/-- The key list built by the loop of the constructor over `entries`, each key
paired with the name of the column it was made for. -/
def Table.taggedKeys (makeKey : String → PartitionInfo → PK)
    (entries : List (String × Column)) : List (String × PK) :=
  Table.collectKeys (fun n part => (n, makeKey n part)) entries []

end TableSpec

/-- The column map of the `orders` table of the spec: `region` is a partition
column (`chunk = 4`, values `us` and `eu`), `amount` has default properties. -/
def ordersColumns : ColumnProps :=
  { entries :=
      [("region", Column.ctor false false false "" [] { values := ["us", "eu"], chunk := 4 }),
       ("amount", Column.ctor)]
    distinct := by decide }

/-- A key construction routine for examples: the key records the column name,
the partition values and the chunk size. -/
def exampleKey (name : String) (part : PartitionInfo) : String × List String × Nat :=
  (name, part.values, part.chunk)

/-- The `orders` table of the spec, without a schema. -/
def ordersTable : Table (String × List String × Nat) :=
  Table.ctor id exampleKey "orders" none ordersColumns [] ""

/-- A column map whose only entry gives the window column a valid partition
(`chunk = 1`, values `1` and `2`). -/
def windowColumns : ColumnProps :=
  { entries :=
      [(Table.WINDOW_COLUMN,
        Column.ctor false false false "" [] { values := ["1", "2"], chunk := 1 })]
    distinct := by decide }

/-- The schema of the `orders` table of the spec; the kinds `long`, `string`
and `int` are given the codes 1, 2 and 3. -/
def ordersSchema : RowType :=
  { children :=
      [{ name := "_time_", kind := Kind.other 1 },
       { name := "region", kind := Kind.other 2 },
       { name := "amount", kind := Kind.other 3 }] }

/-- The `orders` table of the spec, with its schema. -/
def ordersTableWithSchema : Table (String × List String × Nat) :=
  Table.ctor id exampleKey "orders" (some ordersSchema) ordersColumns [] ""

/-- A table with a table-level rule that denies `READ` to the group `guests`,
and a column `amount` with a rule that allows it. -/
def guardedTable : Table (String × List String × Nat) :=
  Table.ctor id exampleKey "orders" (some ordersSchema)
    { entries :=
        [("amount", Column.ctor false false false ""
            [{ type := AccessType.READ, groups := ["guests"], action := ActionType.ALLOW }]
            PartitionInfo.init)]
      distinct := by decide }
    [{ type := AccessType.READ, groups := ["guests"], action := ActionType.DENY }] ""

/-- The schema of an `archive` table: `amount` is a string there, and there is
no `region`. -/
def archiveSchema : RowType :=
  { children :=
      [{ name := "_time_", kind := Kind.other 1 },
       { name := "amount", kind := Kind.other 2 }] }

/-- The memory after
`Table a("orders", ordersSchema, ...); Table b("archive", archiveSchema, ...);
Table c = a; a = b;` with `a` at address 0, `b` at address 1 and `c` at
address 2. -/
def copiedTables : TableMemory (String × List String × Nat) :=
  (((TableMemory.empty.construct 0 id exampleKey "orders" (some ordersSchema)
        ordersColumns [] "").construct 1 id exampleKey "archive" (some archiveSchema)
        ColumnProps.empty [] "").copy_construct 0 2).copy_assign 1 0

/-- A metadata service that knows the `orders` table only. -/
def exampleService : MetaService (String × List String × Nat) :=
  { tables := fun name => if name = "orders" then some ordersTableWithSchema else none }

end meta

namespace api
namespace dsl

open nebula.meta

/-- A builder that holds no expression yet, over an empty heap. -/
def emptyBuilder : SharedQuery Unit Unit Expression :=
  { heap := { next := 0, cells := fun _ => none }
    query :=
      { ms_ := none
        table_ := none
        filter_ := none
        selects_ := []
        groups_ := []
        sorts_ := []
        sortType_ := SortType.ASC
        limit_ := 0 } }

end dsl
end api

namespace meta

/-! ## Properties of `Table.h` -/

/-- C1: `p.valid()` is true if and only if `p.chunk > 0` and `p.values` is
non-empty. -/
theorem PartitionInfo.valid_iff (p : PartitionInfo) :
    p.valid = true ↔ p.chunk > 0 ∧ p.values ≠ [] := by
  unfold PartitionInfo.valid
  rw [Bool.and_eq_true, decide_eq_true_iff, decide_eq_true_iff]
  exact Iff.and Iff.rfl List.length_pos

/-- C2: for a `BucketInfo` with `count > 0` and every non-negative integer
`v`, `bucket(v)` returns, and what it returns is `v mod count`. -/
theorem BucketInfo.bucket_eq_mod (b : BucketInfo) (v : Nat) (h : b.count > 0) :
    b.bucket v = some (v % b.count) := by
  unfold BucketInfo.bucket
  rw [if_neg (Nat.pos_iff_ne_zero.mp h)]

/-- Witness of C2: eight buckets, column value 29. -/
theorem BucketInfo.bucket_eq_mod_witness :
    ({ count := 8, bucketColumn := "id" } : BucketInfo).bucket 29 = some (29 % 8) :=
  BucketInfo.bucket_eq_mod { count := 8, bucketColumn := "id" } 29 (by decide)

section TableProps

variable {PK : Type}

/-- The loop of the constructor appends, to the keys it starts from, the keys
of the entries with a valid partition, in iteration order. -/
theorem Table.collectKeys_eq (makeKey : String → PartitionInfo → PK)
    (entries : List (String × Column)) (keys : List PK) :
    Table.collectKeys makeKey entries keys =
      keys ++ (entries.filter (fun cp => cp.2.partition.valid)).map
        (fun cp => makeKey cp.1 cp.2.partition) := by
  induction entries generalizing keys with
  | nil => simp [Table.collectKeys]
  | cons cp rest ih =>
    unfold Table.collectKeys
    by_cases hv : cp.2.partition.valid = true
    · simp only [hv, if_true, List.filter_cons_of_pos, List.map_cons]
      rw [ih, List.append_assoc, List.singleton_append]
    · simp only [hv, Bool.false_eq_true, if_false]
      rw [ih]
      simp only [List.filter_cons, hv, Bool.false_eq_true, if_false]

/-- The pod of a constructed table holds exactly the keys built by the loop. -/
theorem Table.podKeys_ctor (loadTable : Schema → Schema)
    (makeKey : String → PartitionInfo → PK) (name : String) (schema : Schema)
    (columns : ColumnProps) (rules : AccessSpec) (ddl : String) :
    (Table.ctor loadTable makeKey name schema columns rules ddl).podKeys =
      Table.collectKeys makeKey columns.entries [] := by
  unfold Table.podKeys Table.pod Table.ctor
  by_cases h : (Table.collectKeys makeKey columns.entries []).length = 0
  · simp only [h, if_true]
    exact (List.length_eq_zero.mp h).symm
  · simp only [h, if_false]

/-- The keys made for the column named `n`: those of the entries stored under
`n` whose partition is valid. -/
theorem Table.taggedKeys_filter (makeKey : String → PartitionInfo → PK)
    (entries : List (String × Column)) (n : String) :
    (Table.taggedKeys makeKey entries).filter (fun k => k.1 == n) =
      ((entries.filter (fun cp => cp.1 == n)).filter
        (fun cp => cp.2.partition.valid)).map (fun cp => (cp.1, makeKey cp.1 cp.2.partition)) := by
  unfold Table.taggedKeys
  rw [Table.collectKeys_eq, List.nil_append]
  induction entries with
  | nil => rfl
  | cons cp rest ih =>
    by_cases hv : cp.2.partition.valid = true <;> by_cases hn : (cp.1 == n) = true <;>
      simp [List.filter_cons, hv, hn, ih]

/-- In a list of entries without a repeated name, the entries stored under the
name of a member are that member alone. -/
theorem ColumnProps.filter_name_eq (entries : List (String × Column))
    (hd : (entries.map Prod.fst).Nodup) (n : String) (c : Column)
    (hm : (n, c) ∈ entries) :
    entries.filter (fun cp => cp.1 == n) = [(n, c)] := by
  induction entries with
  | nil => cases hm
  | cons cp rest ih =>
    rw [List.map_cons, List.nodup_cons] at hd
    rcases List.mem_cons.mp hm with h | h
    · subst h
      have hrest : rest.filter (fun cp => cp.1 == n) = [] := by
        rw [List.filter_eq_nil_iff]
        intro x hx hxn
        have : x.1 = n := by simpa using hxn
        apply hd.1
        rw [← this]
        exact List.mem_map.mpr ⟨x, hx, rfl⟩
      simp [List.filter_cons, hrest]
    · have hne : (cp.1 == n) = false := by
        rw [beq_eq_false_iff_ne]
        intro hcn
        apply hd.1
        rw [hcn]
        exact List.mem_map.mpr ⟨(n, c), h, rfl⟩
      rw [List.filter_cons, hne]
      exact ih hd.2 h

/-- In a list of entries without a repeated name, the lookup of the name of a
member finds that member. -/
theorem ColumnProps.lookup_of_mem (entries : List (String × Column))
    (hd : (entries.map Prod.fst).Nodup) (n : String) (c : Column)
    (hm : (n, c) ∈ entries) :
    entries.lookup n = some c := by
  induction entries with
  | nil => cases hm
  | cons cp rest ih =>
    rw [List.map_cons, List.nodup_cons] at hd
    obtain ⟨k, v⟩ := cp
    rcases List.mem_cons.mp hm with h | h
    · cases h
      simp [List.lookup]
    · have hne : (n == k) = false := by
        rw [beq_eq_false_iff_ne]
        intro hcn
        apply hd.1
        rw [← hcn]
        exact List.mem_map.mpr ⟨(n, c), h, rfl⟩
      rw [List.lookup_cons, hne]
      exact ih hd.2 h

/-- The lookup of a name that no entry is stored under finds nothing. -/
theorem ColumnProps.lookup_of_not_mem (entries : List (String × Column)) (n : String)
    (hn : n ∉ entries.map Prod.fst) :
    entries.lookup n = none := by
  induction entries with
  | nil => rfl
  | cons cp rest ih =>
    obtain ⟨k, v⟩ := cp
    rw [List.map_cons, List.mem_cons, not_or] at hn
    have hne : (n == k) = false := beq_eq_false_iff_ne.mpr hn.1
    rw [List.lookup_cons, hne]
    exact ih hn.2

/-- C3: the key list of the pod of a constructed table is the list of
`makeKey(name, partition)` over the columns with a valid partition, in
iteration order; among the keys, paired with the column they were made for,
there is exactly one for each column with a valid partition, namely `makeKey`
of its name and partition, and none for a column with an invalid partition; so
the number of keys is the number of columns with a valid partition. -/
theorem Table.ctor_pod_keys (loadTable : Schema → Schema)
    (makeKey : String → PartitionInfo → PK) (name : String) (schema : Schema)
    (columns : ColumnProps) (rules : AccessSpec) (ddl : String) :
    (Table.ctor loadTable makeKey name schema columns rules ddl).podKeys =
        (Table.taggedKeys makeKey columns.entries).map Prod.snd ∧
    (Table.ctor loadTable makeKey name schema columns rules ddl).podKeys =
        (columns.entries.filter (fun cp => cp.2.partition.valid)).map
          (fun cp => makeKey cp.1 cp.2.partition) ∧
    (∀ n c, (n, c) ∈ columns.entries → c.partition.valid = true →
        (Table.taggedKeys makeKey columns.entries).filter (fun k => k.1 == n) =
          [(n, makeKey n c.partition)]) ∧
    (∀ n c, (n, c) ∈ columns.entries → c.partition.valid = false →
        (Table.taggedKeys makeKey columns.entries).filter (fun k => k.1 == n) = []) ∧
    (Table.ctor loadTable makeKey name schema columns rules ddl).podKeys.length =
        columns.entries.countP (fun cp => cp.2.partition.valid) := by
  refine ⟨?_, ?_, ?_, ?_, ?_⟩
  · rw [Table.podKeys_ctor, Table.taggedKeys, Table.collectKeys_eq, Table.collectKeys_eq]
    simp [Function.comp_def]
  · rw [Table.podKeys_ctor, Table.collectKeys_eq, List.nil_append]
  · intro n c hm hv
    rw [Table.taggedKeys_filter, ColumnProps.filter_name_eq _ columns.distinct n c hm]
    simp [hv]
  · intro n c hm hv
    rw [Table.taggedKeys_filter, ColumnProps.filter_name_eq _ columns.distinct n c hm]
    simp [hv]
  · rw [Table.podKeys_ctor, Table.collectKeys_eq, List.nil_append, List.length_map,
      List.countP_eq_length_filter]

/-- Witness of C3: the pod of the `orders` table holds one key, the one of the
partition column `region`, and none for `amount`. -/
theorem Table.ctor_pod_keys_witness :
    ordersTable.podKeys = [("region", ["us", "eu"], 4)] ∧
    (Table.taggedKeys exampleKey ordersColumns.entries).filter (fun k => k.1 == "region") =
      [("region", exampleKey "region" { values := ["us", "eu"], chunk := 4 })] ∧
    (Table.taggedKeys exampleKey ordersColumns.entries).filter (fun k => k.1 == "amount") = [] :=
  ⟨(Table.ctor_pod_keys id exampleKey "orders" none ordersColumns [] "").2.1.trans (by decide),
   (Table.ctor_pod_keys id exampleKey "orders" none ordersColumns [] "").2.2.1
      "region" (Column.ctor false false false "" [] { values := ["us", "eu"], chunk := 4 })
      (by decide) (by decide),
   (Table.ctor_pod_keys id exampleKey "orders" none ordersColumns [] "").2.2.2.1
      "amount" Column.ctor (by decide) (by decide)⟩

/-- C4: the pod of a constructed table is absent if and only if no column of
its column map has a valid partition; a table constructed from an empty
column map has no pod. -/
theorem Table.pod_none_iff (loadTable : Schema → Schema)
    (makeKey : String → PartitionInfo → PK) (name : String) (schema : Schema)
    (columns : ColumnProps) (rules : AccessSpec) (ddl : String) :
    ((Table.ctor loadTable makeKey name schema columns rules ddl).pod = none ↔
      ∀ cp ∈ (Table.ctor loadTable makeKey name schema columns rules ddl).columns_.entries,
        cp.2.partition.valid = false) ∧
    (columns.entries = [] →
      (Table.ctor loadTable makeKey name schema columns rules ddl).pod = none) := by
  have key : (Table.ctor loadTable makeKey name schema columns rules ddl).pod = none ↔
      ∀ cp ∈ columns.entries, cp.2.partition.valid = false := by
    unfold Table.pod Table.ctor
    simp only [Table.collectKeys_eq, List.nil_append, List.length_map]
    by_cases h : (columns.entries.filter (fun cp => cp.2.partition.valid)).length = 0
    · simp only [h, if_true, true_iff]
      intro cp hcp
      have hnil := List.length_eq_zero.mp h
      rw [List.filter_eq_nil_iff] at hnil
      simpa using hnil cp hcp
    · simp only [h, if_false]
      refine ⟨fun hsome => Option.noConfusion hsome, fun hall => absurd ?_ h⟩

      rw [List.length_eq_zero, List.filter_eq_nil_iff]
      intro cp hcp
      simp [hall cp hcp]
  refine ⟨key, ?_⟩
  intro hempty
  rw [key, hempty]
  intro cp hcp
  cases hcp

/-- Witness of C4: the `orders` table has a pod and a column with a valid
partition; the table constructed from the empty column map has no pod. -/
theorem Table.pod_none_iff_witness :
    (ordersTable.pod = none ↔
      ∀ cp ∈ ordersTable.columns_.entries, cp.2.partition.valid = false) ∧
    (Table.ctor id exampleKey "empty" none ColumnProps.empty [] "").pod = none :=
  ⟨(Table.pod_none_iff id exampleKey "orders" none ordersColumns [] "").1,
   (Table.pod_none_iff id exampleKey "empty" none ColumnProps.empty [] "").2 rfl⟩

/-- C5, as the code has it: the column constructed with no arguments has no
bloom filter, no compression, an empty default value, no rules and an invalid
partition, and its dictionary flag `withDict` is `false`. -/
theorem Column.ctor_default :
    Column.ctor.withBloomFilter = false ∧
    Column.ctor.withDict = false ∧
    Column.ctor.withCompress = false ∧
    Column.ctor.defaultValue = "" ∧
    Column.ctor.rules = [] ∧
    Column.ctor.partition.valid = false := by
  decide

/-- C6: `column(n)` is total; it returns the column stored under `n` when the
column map has one, and otherwise the default-constructed column, whose
partition is invalid; the schema of the table plays no part. -/
theorem Table.column_spec (t : Table PK) (n : String) :
    (∀ c, (n, c) ∈ t.columns_.entries → t.column n = c) ∧
    (n ∉ t.columns_.entries.map Prod.fst →
      t.column n = Column.ctor ∧ (t.column n).partition.valid = false) ∧
    (∀ s : Schema, ({ t with schema_ := s } : Table PK).column n = t.column n) := by
  refine ⟨?_, ?_, ?_⟩
  · intro c hm
    unfold Table.column ColumnProps.find
    rw [ColumnProps.lookup_of_mem _ t.columns_.distinct n c hm]
  · intro hn
    have h : t.column n = Column.ctor := by
      unfold Table.column ColumnProps.find
      rw [ColumnProps.lookup_of_not_mem _ n hn]
      rfl
    rw [h]
    exact ⟨rfl, by decide⟩
  · intro s
    rfl

/-- Witness of C6: in the `orders` table, `region` is found with its stored
properties, and `price`, which the column map does not have, yields the
default column. -/
theorem Table.column_spec_witness :
    ordersTable.column "region" =
      Column.ctor false false false "" [] { values := ["us", "eu"], chunk := 4 } ∧
    ordersTable.column "price" = Column.ctor ∧
    (ordersTable.column "price").partition.valid = false :=
  ⟨(Table.column_spec ordersTable "region").1
      (Column.ctor false false false "" [] { values := ["us", "eu"], chunk := 4 }) (by decide),
   (Table.column_spec ordersTable "price").2.1 (by decide)⟩

/-- C7: `t1 == t2` holds if and only if the names are equal, whatever the
schema, columns, rules, pod and ddl of the two tables; the relation is
reflexive, symmetric and transitive. -/
theorem Table.operator_eq_iff (t1 t2 t3 : Table PK) :
    (t1.operator_eq t2 = true ↔ t1.name = t2.name) ∧
    (∀ (s : Schema) (c : ColumnProps) (r : List AccessRule) (p : Option (Pod PK)) (d : String),
      ({ t1 with schema_ := s, columns_ := c, rules_ := r, pod_ := p, ddl_ := d } :
        Table PK).operator_eq t2 = t1.operator_eq t2 ∧
      t2.operator_eq ({ t1 with schema_ := s, columns_ := c, rules_ := r, pod_ := p, ddl_ := d } :
        Table PK) = t2.operator_eq t1) ∧
    t1.operator_eq t1 = true ∧
    (t1.operator_eq t2 = true → t2.operator_eq t1 = true) ∧
    (t1.operator_eq t2 = true → t2.operator_eq t3 = true → t1.operator_eq t3 = true) := by
  unfold Table.operator_eq Table.name
  refine ⟨beq_iff_eq, fun _ _ _ _ _ => ⟨rfl, rfl⟩, beq_self_eq_true _, fun h => ?_, fun h1 h2 => ?_⟩
  · rw [beq_iff_eq] at h ⊢
    exact h.symm
  · rw [beq_iff_eq] at h1 h2 ⊢
    exact h1.trans h2

/-- Witness of C7: the `orders` table equals the table of the same name that
has no columns and no pod, and this is symmetric. -/
theorem Table.operator_eq_iff_witness :
    ordersTable.operator_eq (Table.ctor id exampleKey "orders" none ColumnProps.empty [] "") = true ∧
    (Table.ctor id exampleKey "orders" none ColumnProps.empty [] "").operator_eq ordersTable = true :=
  ⟨(Table.operator_eq_iff ordersTable
      (Table.ctor id exampleKey "orders" none ColumnProps.empty [] "") ordersTable).1.mpr rfl,
   (Table.operator_eq_iff ordersTable
      (Table.ctor id exampleKey "orders" none ColumnProps.empty [] "") ordersTable).2.2.2.1
      (by decide)⟩

end TableProps

end meta

/-! ## Properties of `Dsl.h` -/

namespace api
namespace dsl

open nebula.meta

section QueryProps

variable {MS PK E : Type}

/-- C8: each builder operation sets its field to exactly the argument of the
latest call and discards the previous value: a second `where` leaves the
second filter alone, `select` leaves the list of its arguments in argument
order, and `groupby`, `sortby` and `limit` leave their arguments. -/
theorem Query.builder_overwrites (q : Query MS PK E) (f1 f2 : E) (es1 es2 : List E)
    (g1 g2 s1 s2 : List Nat) (d1 d2 : SortType) (l1 l2 : Nat) :
    (q.where f1).filter_ = some f1 ∧
    ((q.where f1).where f2).filter_ = some f2 ∧
    (q.select es1).selects_ = es1 ∧
    ((q.select es1).select es2).selects_ = es2 ∧
    ((q.select es1).select es2).selects_.length = es2.length ∧
    (q.groupby g1).groups_ = g1 ∧
    ((q.groupby g1).groupby g2).groups_ = g2 ∧
    (q.sortby s1 d1).sorts_ = s1 ∧
    (q.sortby s1 d1).sortType_ = d1 ∧
    ((q.sortby s1 d1).sortby s2 d2).sorts_ = s2 ∧
    ((q.sortby s1 d1).sortby s2 d2).sortType_ = d2 ∧
    (q.limit l1).limit_ = l1 ∧
    ((q.limit l1).limit l2).limit_ = l2 := by
  exact ⟨rfl, rfl, rfl, rfl, rfl, rfl, rfl, rfl, rfl, rfl, rfl, rfl, rfl⟩

/-- C9: each builder operation changes only its own field: `where` only
`filter_`, `select` only `selects_`, `groupby` only `groups_`, `sortby` only
`sorts_` and `sortType_`, `limit` only `limit_`. -/
theorem Query.builder_frame (q : Query MS PK E) (f : E) (es : List E)
    (g s : List Nat) (d : SortType) (l : Nat) :
    ((q.where f).ms_ = q.ms_ ∧ (q.where f).table_ = q.table_ ∧
      (q.where f).selects_ = q.selects_ ∧ (q.where f).groups_ = q.groups_ ∧
      (q.where f).sorts_ = q.sorts_ ∧ (q.where f).sortType_ = q.sortType_ ∧
      (q.where f).limit_ = q.limit_) ∧
    ((q.select es).ms_ = q.ms_ ∧ (q.select es).table_ = q.table_ ∧
      (q.select es).filter_ = q.filter_ ∧ (q.select es).groups_ = q.groups_ ∧
      (q.select es).sorts_ = q.sorts_ ∧ (q.select es).sortType_ = q.sortType_ ∧
      (q.select es).limit_ = q.limit_) ∧
    ((q.groupby g).ms_ = q.ms_ ∧ (q.groupby g).table_ = q.table_ ∧
      (q.groupby g).filter_ = q.filter_ ∧ (q.groupby g).selects_ = q.selects_ ∧
      (q.groupby g).sorts_ = q.sorts_ ∧ (q.groupby g).sortType_ = q.sortType_ ∧
      (q.groupby g).limit_ = q.limit_) ∧
    ((q.sortby s d).ms_ = q.ms_ ∧ (q.sortby s d).table_ = q.table_ ∧
      (q.sortby s d).filter_ = q.filter_ ∧ (q.sortby s d).selects_ = q.selects_ ∧
      (q.sortby s d).groups_ = q.groups_ ∧ (q.sortby s d).limit_ = q.limit_) ∧
    ((q.limit l).ms_ = q.ms_ ∧ (q.limit l).table_ = q.table_ ∧
      (q.limit l).filter_ = q.filter_ ∧ (q.limit l).selects_ = q.selects_ ∧
      (q.limit l).groups_ = q.groups_ ∧ (q.limit l).sorts_ = q.sorts_ ∧
      (q.limit l).sortType_ = q.sortType_) :=
  ⟨⟨rfl, rfl, rfl, rfl, rfl, rfl, rfl⟩, ⟨rfl, rfl, rfl, rfl, rfl, rfl, rfl⟩,
   ⟨rfl, rfl, rfl, rfl, rfl, rfl, rfl⟩, ⟨rfl, rfl, rfl, rfl, rfl, rfl⟩,
   ⟨rfl, rfl, rfl, rfl, rfl, rfl, rfl⟩⟩

/-- C10: `sortby(s)` without a direction argument sets the sort direction to
`ASC` and `sorts_` to `s`, whatever the direction was before the call. -/
theorem Query.sortby_default_asc (q : Query MS PK E) (s : List Nat) :
    (q.sortby s).sortType_ = SortType.ASC ∧ (q.sortby s).sorts_ = s ∧
    (∀ d0 : SortType, ({ q with sortType_ := d0 } : Query MS PK E).sortby s = q.sortby s) :=
  ⟨rfl, rfl, fun _ => rfl⟩

end QueryProps

end dsl
end api

/-! ## Further properties of `Table.h` -/

namespace meta

section TableProps2

variable {PK : Type}

/-- C13, as the code has it: the constructor treats the window column like any
other column. The keys of the pod of the constructed table are the keys the
loop makes, each made for one column. When the column map gives `_window_` a
valid partition, exactly one of them is made for `_window_`, namely `makeKey`
of its name and partition, the table has a pod, and that key is in the pod;
when the column map has no entry for `_window_`, or only one with an invalid
partition, none of the keys of the pod is made for `_window_`. -/
theorem Table.window_key_iff_valid (loadTable : Schema → Schema)
    (makeKey : String → PartitionInfo → PK) (name : String) (schema : Schema)
    (columns : ColumnProps) (rules : AccessSpec) (ddl : String) :
    (Table.ctor loadTable makeKey name schema columns rules ddl).podKeys =
        (Table.taggedKeys makeKey columns.entries).map Prod.snd ∧
    (∀ c, (Table.WINDOW_COLUMN, c) ∈ columns.entries → c.partition.valid = true →
      (Table.taggedKeys makeKey columns.entries).filter
          (fun k => k.1 == Table.WINDOW_COLUMN) =
        [(Table.WINDOW_COLUMN, makeKey Table.WINDOW_COLUMN c.partition)] ∧
      (Table.ctor loadTable makeKey name schema columns rules ddl).pod ≠ none ∧
      makeKey Table.WINDOW_COLUMN c.partition ∈
        (Table.ctor loadTable makeKey name schema columns rules ddl).podKeys) ∧
    ((∀ c, (Table.WINDOW_COLUMN, c) ∈ columns.entries → c.partition.valid = false) →
      (Table.taggedKeys makeKey columns.entries).filter
          (fun k => k.1 == Table.WINDOW_COLUMN) = []) := by
  refine ⟨?_, ?_, ?_⟩
  · rw [Table.podKeys_ctor, Table.taggedKeys, Table.collectKeys_eq, Table.collectKeys_eq]
    simp [Function.comp_def]
  · intro c hm hv
    have hkey : makeKey Table.WINDOW_COLUMN c.partition ∈
        (Table.ctor loadTable makeKey name schema columns rules ddl).podKeys := by
      rw [Table.podKeys_ctor, Table.collectKeys_eq, List.nil_append, List.mem_map]
      exact ⟨(Table.WINDOW_COLUMN, c), List.mem_filter.mpr ⟨hm, hv⟩, rfl⟩
    refine ⟨?_, ?_, hkey⟩
    · rw [Table.taggedKeys_filter,
        ColumnProps.filter_name_eq _ columns.distinct Table.WINDOW_COLUMN c hm]
      simp [hv]
    · intro hnone
      unfold Table.podKeys at hkey
      rw [hnone] at hkey
      cases hkey
  · intro hall
    rw [Table.taggedKeys_filter, List.map_eq_nil_iff, List.filter_eq_nil_iff]
    intro cp hcp hv
    rw [List.mem_filter] at hcp
    have hname : cp.1 = Table.WINDOW_COLUMN := by simpa using hcp.2
    have hmem : (Table.WINDOW_COLUMN, cp.2) ∈ columns.entries := by
      rw [← hname]
      exact hcp.1
    rw [hall cp.2 hmem] at hv
    cases hv

/-- Witness of C13 as amended: the table constructed from a column map that
gives the window column a valid partition has the key of that column in its
pod; the `orders` table, whose column map has no window column, has its pod
keys made by the loop and none of them made for the window column. -/
theorem Table.window_key_iff_valid_witness :
    ((Table.taggedKeys exampleKey windowColumns.entries).filter
        (fun k => k.1 == Table.WINDOW_COLUMN) =
      [(Table.WINDOW_COLUMN,
        exampleKey Table.WINDOW_COLUMN { values := ["1", "2"], chunk := 1 })] ∧
     (Table.ctor id exampleKey "events" none windowColumns [] "").pod ≠ none ∧
     exampleKey Table.WINDOW_COLUMN { values := ["1", "2"], chunk := 1 } ∈
       (Table.ctor id exampleKey "events" none windowColumns [] "").podKeys) ∧
    ordersTable.podKeys = (Table.taggedKeys exampleKey ordersColumns.entries).map Prod.snd ∧
    (Table.taggedKeys exampleKey ordersColumns.entries).filter
        (fun k => k.1 == Table.WINDOW_COLUMN) = [] :=
  ⟨(Table.window_key_iff_valid id exampleKey "events" none windowColumns [] "").2.1
      (Column.ctor false false false "" [] { values := ["1", "2"], chunk := 1 })
      (by decide) (by decide),
   (Table.window_key_iff_valid id exampleKey "orders" none ordersColumns [] "").1,
   (Table.window_key_iff_valid id exampleKey "orders" none ordersColumns [] "").2.2
      (fun c hm => by simp [ordersColumns, Table.WINDOW_COLUMN] at hm)⟩

/-- Counterexample to C13 as stated: the table constructed from a column map
that gives `_window_` a valid partition has a pod, and the one key of that pod
is the partition key of the column `_window_`. -/
theorem Table.window_key_counterexample :
    (Table.ctor id exampleKey "events" none windowColumns [] "").pod.isSome = true ∧
    (Table.ctor id exampleKey "events" none windowColumns [] "").podKeys =
      [("_window_", ["1", "2"], 1)] ∧
    (Table.taggedKeys exampleKey windowColumns.entries).filter
        (fun k => k.1 == Table.WINDOW_COLUMN) ≠ [] := by
  decide

/-- C15: `BucketInfo::empty()` has `count` zero and the empty string as
`bucketColumn`. -/
theorem BucketInfo.empty_sentinel :
    BucketInfo.empty.count = 0 ∧ BucketInfo.empty.bucketColumn = "" :=
  ⟨rfl, rfl⟩

/-- C19: with `count > 0`, `bucket(v)` has a result and the result is below
`count`; `bucket(v)` has no result exactly when `count = 0`, which is the case
of `BucketInfo::empty()` for every `v`. -/
theorem BucketInfo.bucket_defined (b : BucketInfo) (v : Nat) :
    (b.count > 0 → ∃ r, b.bucket v = some r ∧ r < b.count) ∧
    (b.bucket v = none ↔ b.count = 0) ∧
    BucketInfo.empty.bucket v = none := by
  refine ⟨?_, ?_, rfl⟩
  · intro h
    refine ⟨v % b.count, ?_, Nat.mod_lt v h⟩
    unfold BucketInfo.bucket
    rw [if_neg (Nat.pos_iff_ne_zero.mp h)]
  · unfold BucketInfo.bucket
    by_cases h : b.count = 0
    · simp only [h, if_true]
    · simp only [h, if_false]
      exact ⟨fun hs => Option.noConfusion hs, fun hf => absurd hf (fun hf => nomatch hf)⟩

/-- Witness of C19: eight buckets, column value 29, bucket 5. -/
theorem BucketInfo.bucket_defined_witness :
    (∃ r, ({ count := 8, bucketColumn := "id" } : BucketInfo).bucket 29 = some r ∧ r < 8) ∧
    (({ count := 0, bucketColumn := "id" } : BucketInfo).bucket 29 = none) :=
  ⟨(BucketInfo.bucket_defined { count := 8, bucketColumn := "id" } 29).1 (by decide),
   (BucketInfo.bucket_defined { count := 0, bucketColumn := "id" } 29).2.1.mpr rfl⟩

/-- The lookup of an object whose `lookup_` holds the address of the object
itself, as its construction leaves it: with a non-null schema, the kind of the
schema node of `c` when the schema has one and `Kind::INVALID` when it has
none. -/
theorem TableMemory.lookup_of_own (m : TableMemory PK) (a : Nat) (o : TableObject PK)
    (s : RowType) (c : String) (ho : m a = some o) (hself : o.captured = a)
    (hs : o.members.schema_ = some s) :
    (∀ node, s.find c = some node → m.lookup a c = some node.k) ∧
    (s.find c = none → m.lookup a c = some Kind.INVALID) := by
  have hl : m.lookup a c = o.members.lookup_ c := by
    unfold TableMemory.lookup
    simp only [ho, hself]
  rw [hl]
  unfold Table.lookup_
  rw [hs]
  exact ⟨fun node hf => by simp only [hf], fun hf => by simp only [hf]⟩

/-- The lookup of a freshly constructed table answers from the schema of that
table. -/
theorem TableMemory.lookup_construct (m : TableMemory PK) (a : Nat)
    (loadTable : Schema → Schema) (makeKey : String → PartitionInfo → PK) (name : String)
    (schema : Schema) (columns : ColumnProps) (rules : AccessSpec) (ddl : String)
    (s : RowType) (c : String) (hs : loadTable schema = some s) :
    (∀ node, s.find c = some node →
      (m.construct a loadTable makeKey name schema columns rules ddl).lookup a c =
        some node.k) ∧
    (s.find c = none →
      (m.construct a loadTable makeKey name schema columns rules ddl).lookup a c =
        some Kind.INVALID) :=
  TableMemory.lookup_of_own _ a
    { members := Table.ctor loadTable makeKey name schema columns rules ddl, captured := a }
    s c (by simp only [TableMemory.construct, if_true]) rfl hs

/-- C20, at the failing input: after `Table c = a; a = b;` the table `c` has
the non-null schema of `orders`, in which `amount` has the kind of code 3 and
`region` is found; its lookup runs on `a`, which now has the schema of
`archive`, and answers the kind of code 2 for `amount` and `Kind::INVALID`
for `region`. And the lookup of a copy whose original was destroyed has no
result. -/
theorem TableMemory.lookup_copy_diverges :
    (copiedTables 2).map (fun o => o.members.schema_) = some (some ordersSchema) ∧
    ordersSchema.find "amount" = some { name := "amount", kind := Kind.other 3 } ∧
    copiedTables.lookup 2 "amount" = some (Kind.other 2) ∧
    ordersSchema.find "region" = some { name := "region", kind := Kind.other 2 } ∧
    copiedTables.lookup 2 "region" = some Kind.INVALID ∧
    (((TableMemory.empty.construct 0 id exampleKey "orders" (some ordersSchema)
        ordersColumns [] "").copy_construct 0 2).destroy 0).lookup 2 "amount" = none := by
  decide

/-- The more restrictive of two actions is at least as restrictive as the
first. -/
theorem ActionType.level_le_restrict (a b : ActionType) :
    a.level ≤ (a.restrict b).level := by
  unfold ActionType.restrict
  by_cases h : a.level ≤ b.level
  · rw [if_pos h]
    exact h
  · rw [if_neg h]

/-- C17: `checkAccess` without a column is the table-level check, the first
matching rule of the table or the default; the column-level result is at
least as restrictive as the table-level result; a table-level `DENY` is a
`DENY` for every column, whatever the rules of the column. -/
theorem Table.checkAccess_layered (d : ActionType) (t : Table PK) (type : AccessType)
    (groups : List String) (c : String) :
    t.checkAccess d type groups = (AccessRule.evaluate t.rules_ type groups).getD d ∧
    (t.checkAccess d type groups).level ≤ (t.checkAccess d type groups c).level ∧
    (t.checkAccess d type groups = ActionType.DENY →
      t.checkAccess d type groups c = ActionType.DENY) := by
  have htable : t.checkAccess d type groups =
      (AccessRule.evaluate t.rules_ type groups).getD d := by
    simp only [Table.checkAccess, if_true]
  have hle : (t.checkAccess d type groups).level ≤ (t.checkAccess d type groups c).level := by
    rw [htable]
    unfold Table.checkAccess
    by_cases hc : c = ""
    · simp only [hc, if_true, Nat.le_refl]
    · simp only [hc, if_false]
      cases AccessRule.evaluate (t.column c).rules type groups with
      | none => exact Nat.le_refl _
      | some action => exact ActionType.level_le_restrict _ action
  refine ⟨htable, hle, ?_⟩
  intro hdeny
  rw [hdeny] at hle
  cases hcol : t.checkAccess d type groups c with
  | ALLOW => rw [hcol] at hle; exact absurd hle (by decide)
  | MASK => rw [hcol] at hle; exact absurd hle (by decide)
  | DENY => rfl

/-- Witness of C17: the table denies `READ` to the group `guests`; the column
`amount` has a rule that allows it, and the column-level result is `DENY`. -/
theorem Table.checkAccess_layered_witness :
    guardedTable.checkAccess ActionType.ALLOW AccessType.READ ["guests"] = ActionType.DENY ∧
    guardedTable.checkAccess ActionType.ALLOW AccessType.READ ["guests"] "amount" =
      ActionType.DENY :=
  ⟨by decide,
   (Table.checkAccess_layered ActionType.ALLOW guardedTable AccessType.READ ["guests"]
      "amount").2.2 (by decide)⟩

end TableProps2

end meta

/-! ## Further properties of `Dsl.h` -/

namespace api
namespace dsl

open nebula.meta

section QueryProps2

variable {MS PK E : Type}

/-- C12: `count(x)` is the `COUNT` expression whose child is the constant
expression holding `x`; when `x` is a column expression the child is still
that constant and not the column reference. `max`, `min`, `sum` and `reverse`
are the `MAX`, `MIN`, `SUM` and `NOT` expressions whose child is the argument
expression. -/
theorem count_wraps_constant (x : Value) (e : Expression) (name : String) :
    count x = Expression.UDFExpression UDFType.COUNT (Expression.ConstExpression x) ∧
    count (Value.expression (col name)) =
      Expression.UDFExpression UDFType.COUNT
        (Expression.ConstExpression (Value.expression (Expression.ColumnExpression name))) ∧
    count x ≠ Expression.UDFExpression UDFType.COUNT (col name) ∧
    max e = Expression.UDFExpression UDFType.MAX e ∧
    min e = Expression.UDFExpression UDFType.MIN e ∧
    sum e = Expression.UDFExpression UDFType.SUM e ∧
    reverse e = Expression.UDFExpression UDFType.NOT e := by
  refine ⟨rfl, rfl, ?_, rfl, rfl, rfl, rfl⟩
  intro h
  unfold count col at h
  injection h with _ hchild
  cases hchild

/-- C14: when the metadata service does not resolve the table name, the
`Query` constructor fails with `TableNotFound`, and so does `table(name,
metaservice)`, as does `table(name)` when the default service does not resolve
the name; none of them produces a query. When the service resolves the name,
the constructed query is bound to the table it resolves to. -/
theorem Query.ctor_table_not_found (m d : MetaService PK) (name : String)
    (sortType : SortType) :
    (m.tables name = none →
      (Query.ctor name (some m) sortType :
          Option (Except Error (Query (MetaService PK) PK E))) =
        some (Except.error Error.TableNotFound) ∧
      (table d sortType name (some m) :
          Option (Except Error (Query (MetaService PK) PK E))) =
        some (Except.error Error.TableNotFound) ∧
      ∀ q : Query (MetaService PK) PK E,
        Query.ctor name (some m) sortType ≠ some (Except.ok q) ∧
        table d sortType name (some m) ≠ some (Except.ok q)) ∧
    (d.tables name = none →
      (table d sortType name :
          Option (Except Error (Query (MetaService PK) PK E))) =
        some (Except.error Error.TableNotFound)) ∧
    (∀ t, m.tables name = some t →
      ∃ q : Query (MetaService PK) PK E,
        Query.ctor name (some m) sortType = some (Except.ok q) ∧ q.table_ = some t) := by
  refine ⟨?_, ?_, ?_⟩
  · intro h
    have hctor : (Query.ctor name (some m) sortType :
        Option (Except Error (Query (MetaService PK) PK E))) =
          some (Except.error Error.TableNotFound) := by
      simp only [Query.ctor, MetaService.query, h]
    have htable : (table d sortType name (some m) :
        Option (Except Error (Query (MetaService PK) PK E))) =
          some (Except.error Error.TableNotFound) := hctor
    refine ⟨hctor, htable, fun q => ⟨?_, ?_⟩⟩
    · rw [hctor]
      intro hq
      cases hq
    · rw [htable]
      intro hq
      cases hq
  · intro h
    simp only [table, Query.ctor, MetaService.query, h]
  · intro t h
    refine ⟨{ ms_ := some m, table_ := some t, filter_ := none, selects_ := [], groups_ := [],
              sorts_ := [], sortType_ := sortType, limit_ := 0 }, ?_, rfl⟩
    simp only [Query.ctor, MetaService.query, h]

/-- C18: the copy constructor gives the new query the table, filter, selects,
groups, sorts, sort direction and limit that `q` had, and leaves `q` without a
filter and with empty selects, groups and sorts, its table, sort direction and
limit unchanged. -/
theorem Query.ctor_copy_transfers (q : Query MS PK E) :
    ((Query.ctor_copy q).1.ms_ = q.ms_ ∧
      (Query.ctor_copy q).1.table_ = q.table_ ∧
      (Query.ctor_copy q).1.filter_ = q.filter_ ∧
      (Query.ctor_copy q).1.selects_ = q.selects_ ∧
      (Query.ctor_copy q).1.groups_ = q.groups_ ∧
      (Query.ctor_copy q).1.sorts_ = q.sorts_ ∧
      (Query.ctor_copy q).1.sortType_ = q.sortType_ ∧
      (Query.ctor_copy q).1.limit_ = q.limit_) ∧
    ((Query.ctor_copy q).2.filter_ = none ∧
      (Query.ctor_copy q).2.selects_ = [] ∧
      (Query.ctor_copy q).2.groups_ = [] ∧
      (Query.ctor_copy q).2.sorts_ = []) ∧
    ((Query.ctor_copy q).2.ms_ = q.ms_ ∧
      (Query.ctor_copy q).2.table_ = q.table_ ∧
      (Query.ctor_copy q).2.sortType_ = q.sortType_ ∧
      (Query.ctor_copy q).2.limit_ = q.limit_) :=
  ⟨⟨rfl, rfl, rfl, rfl, rfl, rfl, rfl, rfl⟩, ⟨rfl, rfl, rfl, rfl⟩, ⟨rfl, rfl, rfl, rfl⟩⟩

/-- Witness of C14: the example service knows `orders` only; constructing a
query for `missing` fails with `TableNotFound`, through the constructor,
through `table` with that service, and through `table` with that service as
the default one. -/
theorem Query.ctor_table_not_found_witness :
    (Query.ctor "missing" (some exampleService) SortType.ASC :
        Option (Except Error (Query (MetaService _) _ Expression))) =
      some (Except.error Error.TableNotFound) ∧
    (table exampleService SortType.ASC "missing" (some exampleService) :
        Option (Except Error (Query (MetaService _) _ Expression))) =
      some (Except.error Error.TableNotFound) ∧
    (table exampleService SortType.ASC "missing" :
        Option (Except Error (Query (MetaService _) _ Expression))) =
      some (Except.error Error.TableNotFound) :=
  ⟨((Query.ctor_table_not_found exampleService exampleService "missing" SortType.ASC).1
      rfl).1,
   ((Query.ctor_table_not_found exampleService exampleService "missing" SortType.ASC).1
      rfl).2.1,
   (Query.ctor_table_not_found exampleService exampleService "missing" SortType.ASC).2.1
      rfl⟩

end QueryProps2

section SharedProps

variable {MS PK E : Type}

/-- The addresses of the objects made for a list of arguments are the next
addresses of the heap, in order. -/
theorem Heap.makeAll_addresses (h : Heap E) (vs : List E) :
    (h.makeAll vs).2 = List.range' h.next vs.length := by
  induction vs generalizing h with
  | nil => rfl
  | cons v vs ih =>
    simp only [Heap.makeAll, List.length_cons, List.range'_succ]
    rw [ih]
    rfl

/-- Making objects advances the next address by their number. -/
theorem Heap.makeAll_next (h : Heap E) (vs : List E) :
    (h.makeAll vs).1.next = h.next + vs.length := by
  induction vs generalizing h with
  | nil => rfl
  | cons v vs ih =>
    simp only [Heap.makeAll, List.length_cons]
    rw [ih]
    simp only [Heap.make]
    omega

/-- Making objects leaves the cells below the next address as they are. -/
theorem Heap.makeAll_cells_old (h : Heap E) (vs : List E) (a : Nat) (ha : a < h.next) :
    (h.makeAll vs).1.cells a = h.cells a := by
  induction vs generalizing h with
  | nil => rfl
  | cons v vs ih =>
    simp only [Heap.makeAll]
    rw [ih (h.make v).1 (by simp only [Heap.make]; omega)]
    simp only [Heap.make]
    rw [if_neg (by omega)]

/-- The object made for the `i`-th argument holds that argument, with one
owner. -/
theorem Heap.makeAll_cells_new (h : Heap E) (vs : List E) (i : Nat) (v : E)
    (hv : vs[i]? = some v) :
    (h.makeAll vs).1.cells (h.next + i) = some { value := v, owners := 1 } := by
  induction vs generalizing h i with
  | nil => simp at hv
  | cons w ws ih =>
    simp only [Heap.makeAll]
    cases i with
    | zero =>
      simp only [List.getElem?_cons_zero, Option.some.injEq] at hv
      rw [Heap.makeAll_cells_old _ _ _ (by simp only [Heap.make]; omega)]
      simp only [Heap.make, Nat.add_zero, if_true, hv]
    | succ j =>
      simp only [List.getElem?_cons_succ] at hv
      have := ih (h.make w).1 j hv
      simp only [Heap.make] at this ⊢
      rw [← this]
      congr 1
      omega

/-- Releasing a pointer leaves the next address as it is. -/
theorem Heap.releaseAll_next (h : Heap E) (bs : List Nat) :
    (h.releaseAll bs).next = h.next := by
  induction bs generalizing h with
  | nil => rfl
  | cons b bs ih =>
    simp only [Heap.releaseAll]
    rw [ih]
    rfl

/-- Releasing a pointer leaves the cells at other addresses as they are. -/
theorem Heap.release_cells_other (h : Heap E) (a b : Nat) (hab : a ≠ b) :
    (h.release b).cells a = h.cells a := by
  simp only [Heap.release]
  rw [if_neg hab]

/-- Releasing pointers leaves the cells they do not point to as they are. -/
theorem Heap.releaseAll_cells_other (h : Heap E) (bs : List Nat) (a : Nat) (ha : a ∉ bs) :
    (h.releaseAll bs).cells a = h.cells a := by
  induction bs generalizing h with
  | nil => rfl
  | cons b bs ih =>
    rw [List.mem_cons, not_or] at ha
    simp only [Heap.releaseAll]
    rw [ih _ ha.2, Heap.release_cells_other _ _ _ ha.1]

/-- Releasing one pointer to an object that has another owner keeps the
object, with one owner less. -/
theorem Heap.release_cells_shared (h : Heap E) (a : Nat) (c : Cell E)
    (hc : h.cells a = some c) (ho : 1 < c.owners) :
    (h.release a).cells a = some { value := c.value, owners := c.owners - 1 } := by
  simp only [Heap.release, if_true, hc]
  rw [if_neg (by omega)]

/-- Releasing pointers to distinct objects, one of them to an object that has
another owner, keeps that object, with one owner less. -/
theorem Heap.releaseAll_cells_shared (h : Heap E) (bs : List Nat) (a : Nat) (c : Cell E)
    (hd : bs.Nodup) (ha : a ∈ bs) (hc : h.cells a = some c) (ho : 1 < c.owners) :
    (h.releaseAll bs).cells a = some { value := c.value, owners := c.owners - 1 } := by
  induction bs generalizing h with
  | nil => cases ha
  | cons b bs ih =>
    rw [List.nodup_cons] at hd
    simp only [Heap.releaseAll]
    by_cases hab : a = b
    · subst hab
      rw [Heap.releaseAll_cells_other _ _ _ hd.1]
      exact Heap.release_cells_shared h a c hc ho
    · have hmem : a ∈ bs := by
        rcases List.mem_cons.mp ha with h1 | h1
        · exact absurd h1 hab
        · exact h1
      exact ih (h.release b) hd.2 hmem (by rw [Heap.release_cells_other _ _ _ hab]; exact hc)

/-- Releasing a pointer never changes the value of an object: an object that
is there afterwards was there before, with the same value. -/
theorem Heap.release_read (h : Heap E) (b a : Nat) (v : E)
    (hr : (h.release b).read a = some v) : h.read a = some v := by
  by_cases hab : a = b
  · subst hab
    simp only [Heap.read, Heap.release, if_true] at hr ⊢
    cases hc : h.cells a with
    | none => simp [hc] at hr
    | some c =>
      rw [hc] at hr
      by_cases ho : c.owners ≤ 1
      · simp [ho] at hr
      · simpa [ho] using hr
  · simpa only [Heap.read, Heap.release_cells_other h a b hab] using hr

/-- Releasing pointers never changes the value of an object. -/
theorem Heap.releaseAll_read (h : Heap E) (bs : List Nat) (a : Nat) (v : E)
    (hr : (h.releaseAll bs).read a = some v) : h.read a = some v := by
  induction bs generalizing h with
  | nil => exact hr
  | cons b bs ih => exact Heap.release_read h b a v (ih (h.release b) hr)

/-- After `where(f)` on a well-formed builder, `filter_` is the address the
heap had next, and the object there is `f` with one owner. -/
theorem SharedQuery.where_cell (b : SharedQuery MS PK E) (f : E) (hwf : b.WF) :
    (b.where f).query.filter_ = some b.heap.next ∧
    (b.where f).heap.cells b.heap.next = some { value := f, owners := 1 } ∧
    (b.where f).heap.next = b.heap.next + 1 := by
  refine ⟨rfl, ?_, ?_⟩
  · cases hfil : b.query.filter_ with
    | none => simp [SharedQuery.where, Heap.make, hfil]
    | some old =>
      have hlt := hwf.1 old hfil
      have hne : b.heap.next ≠ old := by omega
      simp [SharedQuery.where, Heap.make, Heap.release, hfil, hne]
  · cases hfil : b.query.filter_ with
    | none => simp [SharedQuery.where, Heap.make, hfil]
    | some old => simp [SharedQuery.where, Heap.make, Heap.release, hfil]

/-- After `select(es)` on a well-formed builder, `selects_` holds the
addresses the heap had next, and the object made for the `i`-th argument is
that argument with one owner. -/
theorem SharedQuery.select_cell (b : SharedQuery MS PK E) (es : List E) (hwf : b.WF) :
    (b.select es).query.selects_ = List.range' b.heap.next es.length ∧
    (∀ (i : Nat) (e : E), es[i]? = some e →
      (b.select es).heap.cells (b.heap.next + i) = some { value := e, owners := 1 }) ∧
    (b.select es).heap.next = b.heap.next + es.length := by
  refine ⟨Heap.makeAll_addresses b.heap es, ?_, ?_⟩
  · intro i e he
    simp only [SharedQuery.select]
    rw [Heap.releaseAll_cells_other, Heap.makeAll_cells_new _ _ _ _ he]
    intro hmem
    have := hwf.2 _ hmem
    omega
  · simp only [SharedQuery.select]
    rw [Heap.releaseAll_next, Heap.makeAll_next]

/-- Capturing the instance at `a` gives its object one more owner and leaves
the pointers of the builder and the next address as they are. -/
theorem SharedQuery.capture_cell (c : SharedQuery MS PK E) (a : Nat) (cell : Cell E)
    (hcell : c.heap.cells a = some cell) :
    (c.capture a).heap.cells a = some { value := cell.value, owners := cell.owners + 1 } ∧
    (c.capture a).heap.next = c.heap.next ∧
    (c.capture a).query = c.query := by
  refine ⟨?_, rfl, rfl⟩
  simp [SharedQuery.capture, Heap.acquire, hcell]

/-- When the object `filter_` points to has another owner, `where(f)` makes
a new object holding `f`, at the address the heap had next, and the former
object keeps its value. -/
theorem SharedQuery.where_keeps (c : SharedQuery MS PK E) (f : E) (a : Nat) (cell : Cell E)
    (hfil : c.query.filter_ = some a) (hcell : c.heap.cells a = some cell)
    (ho : 1 < cell.owners) (hlt : a < c.heap.next) :
    (c.where f).query.filter_ = some c.heap.next ∧
    (c.where f).heap.read c.heap.next = some f ∧
    (c.where f).heap.read a = some cell.value := by
  have hne : a ≠ c.heap.next := by omega
  have hne2 : c.heap.next ≠ a := by omega
  have hno : ¬ cell.owners ≤ 1 := by omega
  refine ⟨rfl, ?_, ?_⟩
  · simp [SharedQuery.where, Heap.make, Heap.release, Heap.read, hfil, hne2]
  · simp [SharedQuery.where, Heap.make, Heap.release, Heap.read, hfil, hne, hcell, hno]

/-- When `selects_` holds distinct addresses and the object at one of them has
another owner, `select(es)` makes its new objects at the addresses the heap
had next, and the former object keeps its value. -/
theorem SharedQuery.select_keeps (c : SharedQuery MS PK E) (es : List E) (a : Nat)
    (cell : Cell E) (hd : c.query.selects_.Nodup) (ha : a ∈ c.query.selects_)
    (hcell : c.heap.cells a = some cell) (ho : 1 < cell.owners) (hlt : a < c.heap.next) :
    (c.select es).query.selects_ = List.range' c.heap.next es.length ∧
    (c.select es).heap.read a = some cell.value := by
  refine ⟨Heap.makeAll_addresses c.heap es, ?_⟩
  have hmade : (c.heap.makeAll es).1.cells a = some cell := by
    rw [Heap.makeAll_cells_old _ _ _ hlt]
    exact hcell
  simp only [SharedQuery.select, Heap.read]
  rw [Heap.releaseAll_cells_shared _ _ _ _ hd ha hmade ho]
  rfl

/-- C11: the builder stores its own copy of each expression it is given, and
a captured instance is not altered by later builder calls. On a well-formed
builder, `where(f1)` stores `f1` in a new object; once that instance is
captured, `where(f2)` stores `f2` in another new object and the captured
instance still holds `f1`. Likewise each entry of `select(es1)` is a new
object holding its argument, and a captured entry still holds it after
`select(es2)`, which no longer refers to it. Neither operation changes the
value of any object that existed before the call. -/
theorem SharedQuery.captured_unaltered (b : SharedQuery MS PK E) (f1 f2 : E)
    (es1 es2 : List E) (hwf : b.WF) :
    (∃ a1 a2,
      (b.where f1).query.filter_ = some a1 ∧ b.heap.next ≤ a1 ∧
      (b.where f1).heap.read a1 = some f1 ∧
      (((b.where f1).capture a1).where f2).query.filter_ = some a2 ∧ a2 ≠ a1 ∧
      (((b.where f1).capture a1).where f2).heap.read a2 = some f2 ∧
      (((b.where f1).capture a1).where f2).heap.read a1 = some f1) ∧
    (∀ (i : Nat) (e : E), es1[i]? = some e →
      ∃ a, (b.select es1).query.selects_[i]? = some a ∧ b.heap.next ≤ a ∧
        (b.select es1).heap.read a = some e ∧
        (((b.select es1).capture a).select es2).heap.read a = some e ∧
        a ∉ (((b.select es1).capture a).select es2).query.selects_) ∧
    (∀ a v, a < b.heap.next →
      (b.where f1).heap.read a = some v → b.heap.read a = some v) ∧
    (∀ a v, a < b.heap.next →
      (b.select es1).heap.read a = some v → b.heap.read a = some v) := by
  refine ⟨?_, ?_, ?_, ?_⟩
  · obtain ⟨hf, hc, hn⟩ := SharedQuery.where_cell b f1 hwf
    obtain ⟨hcc, hcn, hcq⟩ := SharedQuery.capture_cell (b.where f1) b.heap.next _ hc
    have hkeep := SharedQuery.where_keeps ((b.where f1).capture b.heap.next) f2 b.heap.next
      { value := f1, owners := 1 + 1 } (by rw [hcq]; exact hf) hcc (Nat.lt_succ_self 1)
      (by rw [hcn, hn]; omega)
    rw [hcn, hn] at hkeep
    refine ⟨b.heap.next, b.heap.next + 1, hf, Nat.le_refl _, ?_, hkeep.1, by omega,
      hkeep.2.1, hkeep.2.2⟩
    simp only [Heap.read, hc, Option.map_some']
  · intro i e he
    obtain ⟨hs, hc, hn⟩ := SharedQuery.select_cell b es1 hwf
    have hi : i < es1.length := by
      rcases Nat.lt_or_ge i es1.length with h | h
      · exact h
      · rw [List.getElem?_eq_none h] at he
        cases he
    have hmem : b.heap.next + i ∈ List.range' b.heap.next es1.length := by
      rw [List.mem_range'_1]
      omega
    obtain ⟨hcc, hcn, hcq⟩ :=
      SharedQuery.capture_cell (b.select es1) (b.heap.next + i) _ (hc i e he)
    have hkeep := SharedQuery.select_keeps ((b.select es1).capture (b.heap.next + i)) es2
      (b.heap.next + i) { value := e, owners := 1 + 1 }
      (by rw [hcq, hs]; exact List.nodup_range' _ _) (by rw [hcq, hs]; exact hmem) hcc
      (Nat.lt_succ_self 1) (by rw [hcn, hn]; omega)
    rw [hcn, hn] at hkeep
    refine ⟨b.heap.next + i, ?_, Nat.le_add_right _ _, ?_, hkeep.2, ?_⟩
    · rw [hs, List.getElem?_range' _ _ hi]
      simp
    · simp only [Heap.read, hc i e he, Option.map_some']
    · rw [hkeep.1, List.mem_range'_1]
      omega
  · intro a v ha hr
    have hmake : (b.heap.make f1).1.read a = b.heap.read a := by
      simp only [Heap.read, Heap.make]
      rw [if_neg (by omega)]
    cases hfil : b.query.filter_ with
    | none =>
      simp only [SharedQuery.where, hfil] at hr
      rw [← hmake]
      exact hr
    | some old =>
      simp only [SharedQuery.where, hfil] at hr
      rw [← hmake]
      exact Heap.release_read _ old a v hr
  · intro a v ha hr
    simp only [SharedQuery.select] at hr
    have := Heap.releaseAll_read _ _ a v hr
    simpa only [Heap.read, Heap.makeAll_cells_old _ _ _ ha] using this

/-- Witness of C11: on the empty builder, the filter on column `x` is stored
at address 0; after it is captured and the filter is replaced by one on column
`y`, stored at address 1, the captured instance still is the reference to
column `x`. -/
theorem SharedQuery.captured_unaltered_witness :
    (emptyBuilder.where (col "x")).query.filter_ = some 0 ∧
    (((emptyBuilder.where (col "x")).capture 0).where (col "y")).query.filter_ = some 1 ∧
    (((emptyBuilder.where (col "x")).capture 0).where (col "y")).heap.read 0 =
      some (Expression.ColumnExpression "x") ∧
    (∃ a1 a2,
      (emptyBuilder.where (col "x")).query.filter_ = some a1 ∧ emptyBuilder.heap.next ≤ a1 ∧
      (emptyBuilder.where (col "x")).heap.read a1 = some (col "x") ∧
      (((emptyBuilder.where (col "x")).capture a1).where (col "y")).query.filter_ = some a2 ∧
      a2 ≠ a1 ∧
      (((emptyBuilder.where (col "x")).capture a1).where (col "y")).heap.read a2 =
        some (col "y") ∧
      (((emptyBuilder.where (col "x")).capture a1).where (col "y")).heap.read a1 =
        some (col "x")) :=
  ⟨rfl, rfl, rfl,
   (SharedQuery.captured_unaltered emptyBuilder (col "x") (col "y") [col "x"] [col "y"]
      ⟨fun _ h => Option.noConfusion h, fun _ h => (List.not_mem_nil _ h).elim⟩).1⟩

end SharedProps

section CompileProps

variable {PK : Type}

end CompileProps

end dsl
end api
end nebula
